import Mathlib

/-!
Shallow embedding of the core logic of the Unposted journaling application
(`app.py`): the fallback text-analysis pipeline (keyword-based emotion
scoring, sentence-splitting summarizer, templated reflection generator, and
emotion-label sanitizer), the remote-call adapters, the journal-page control
flow, and the persistence contract (streak table and entries table).

Text is modelled as `List Char`; Python string operations (`strip`, `lower`,
`count`, `split`, `splitlines`, slicing) are embedded as executable functions
on `List Char`.  Recursions that skip several characters per step are written
with an explicit fuel argument equal to the string length, so that every
definition computes by `decide`/`rfl`; the fuel-0 branch coincides with the
empty-list branch, so the fuel never changes the result.
-/

set_option maxRecDepth 100000

namespace Unposted

/-- Python whitespace characters recognised by `str.strip()` / `str.split()`
(ASCII range). -/
def pyIsSpace (c : Char) : Bool :=
  (c == ' ') || (c == '\t') || (c == '\n') || (c == '\r') || (c == '\x0b') || (c == '\x0c')

/-- Python `str.strip()`: drop leading and trailing whitespace. -/
def pyStrip (s : List Char) : List Char :=
  ((s.dropWhile pyIsSpace).reverse.dropWhile pyIsSpace).reverse

/-- Python `str.lower()` (ASCII letters). -/
def pyLower (s : List Char) : List Char :=
  s.map Char.toLower

/-- Python `str.capitalize()`: first character uppercased, the rest lowercased. -/
def pyCapitalize (s : List Char) : List Char :=
  match s with
  | [] => []
  | c :: rest => Char.toUpper c :: rest.map Char.toLower

/-- Fuel-indexed scan for Python `str.count`: counts non-overlapping
occurrences of `sub`, restarting after each match past its end. -/
def pyCountGo (sub : List Char) : Nat → List Char → Nat
  | 0, _ => 0
  | _ + 1, [] => 0
  | fuel + 1, c :: rest =>
    if sub.isPrefixOf (c :: rest) then
      1 + pyCountGo sub fuel (rest.drop (sub.length - 1))
    else
      pyCountGo sub fuel rest

/-- Python `s.count(sub)`: number of non-overlapping occurrences of `sub` in
`s` (`s.count("")` is `len(s) + 1` in Python). -/
def pyCount (s sub : List Char) : Nat :=
  if sub.isEmpty then s.length + 1 else pyCountGo sub s.length s

/-- Fuel-indexed worker for Python `str.split()` with no separator: split on
whitespace runs, discarding empty pieces. -/
def pySplitWsGo : Nat → List Char → List (List Char)
  | 0, _ => []
  | _ + 1, [] => []
  | fuel + 1, c :: rest =>
    if pyIsSpace c then
      pySplitWsGo fuel rest
    else
      (c :: rest).takeWhile (fun x => !pyIsSpace x)
        :: pySplitWsGo fuel ((c :: rest).dropWhile (fun x => !pyIsSpace x))

/-- Python `str.split()` with no argument. -/
def pySplitWs (s : List Char) : List (List Char) :=
  pySplitWsGo s.length s

/-- The fixed emotion label list `EMO_LABELS` from `app.py` (also the
insertion order of the `scores` dict built in `simple_emotion_fallback`). -/
def EMO_LABELS : List (List Char) :=
  ["Happy", "Sad", "Angry", "Calm", "Stressed"].map String.toList

/-- The `EMO_KEYWORDS` dict from `app.py`, in its declaration (= iteration)
order: Happy, Sad, Angry, Stressed, Calm. -/
def EMO_KEYWORDS : List (List Char × List (List Char)) :=
  [ (String.toList "Happy",
      ["happy", "joy", "joyful", "excited", "good", "great", "love", "grateful",
        "proud"].map String.toList),
    (String.toList "Sad",
      ["sad", "down", "depressed", "blue", "tired", "lonely", "upset", "cry",
        "unhappy"].map String.toList),
    (String.toList "Angry",
      ["angry", "mad", "furious", "frustrated", "annoyed", "irritated",
        "rage"].map String.toList),
    (String.toList "Stressed",
      ["stressed", "anxious", "overwhelmed", "worried", "nervous", "tense",
        "pressure"].map String.toList),
    (String.toList "Calm",
      ["calm", "peaceful", "relaxed", "okay", "fine"].map String.toList) ]

/-- Keyword list associated to a label in `EMO_KEYWORDS`. -/
def keywordsFor (label : List Char) : List (List Char) :=
  match EMO_KEYWORDS.lookup label with
  | some kws => kws
  | none => []

/-- Value of `scores[label]` after the keyword loop in
`simple_emotion_fallback`: the sum over the label's keywords of
`t.count(kw)`, where `t` is the lowercased text. -/
def emotionScore (t : List Char) (label : List Char) : Nat :=
  (keywordsFor label).foldl (fun a kw => a + pyCount t kw) 0

/-- Python `max(keys, key=f)` over a nonempty iterable `x :: xs`: keeps the
current maximum and replaces it only on a strictly greater key, so the first
element attaining the maximum wins. -/
def pyMaxKey {α : Type} (f : α → Nat) (x : α) (xs : List α) : α :=
  xs.foldl (fun b k => if f b < f k then k else b) x

/-- Python `max(keys, key=f)` over a possibly empty key list. -/
def pyMaxKeyList {α : Type} (f : α → Nat) (dflt : α) : List α → α
  | [] => dflt
  | x :: xs => pyMaxKey f x xs

/-- The `simple_emotion_fallback` function of `app.py`: lowercase the text,
score each label in the `scores` dict (keyed in `EMO_LABELS` order) by summed
keyword occurrences, return `Calm` if every score is zero, else the first
label of maximal score in `scores` iteration order. -/
def simple_emotion_fallback (text : List Char) : List Char :=
  let t := pyLower text
  if EMO_LABELS.all (fun label => emotionScore t label == 0) then
    String.toList "Calm"
  else
    pyMaxKeyList (emotionScore t) (String.toList "Calm") EMO_LABELS

/-- The sentinel set of `is_unavailable` in `app.py`. -/
def UNAVAILABLE_SENTINELS : List (List Char) :=
  ["", "unavailable", "error", "n/a"].map String.toList

/-- The `is_unavailable` predicate of `app.py` (restricted to strings; the
`None` case of the Python code is not representable here). -/
def is_unavailable (s : List Char) : Bool :=
  UNAVAILABLE_SENTINELS.contains (pyLower (pyStrip s))

/-- Python substring membership `needle in hay`: some tail of `hay` starts
with `needle`. -/
def pyContainsSub (hay needle : List Char) : Bool :=
  hay.tails.any (fun t => needle.isPrefixOf t)

/-- Python `re.sub(r"[^a-z]", "", tok)`: keep only lowercase ASCII letters. -/
def stripNonAlpha (tok : List Char) : List Char :=
  tok.filter (fun c => ('a' ≤ c) && (c ≤ 'z'))

/-- Final branch of `sanitize_emotion_label` in `app.py`: take the first
whitespace token of `rl` (default `"calm"` when there is none), strip
non-letters, capitalize and return it when it matches a lowercased label,
else return `Calm`. -/
def tokenFallbackLabel (rl : List Char) : List Char :=
  let tok0 :=
    match pySplitWs rl with
    | [] => String.toList "calm"
    | t :: _ => t
  let tok := stripNonAlpha tok0
  if (EMO_LABELS.map pyLower).contains tok then pyCapitalize tok
  else String.toList "Calm"

/-- The `sanitize_emotion_label` function of `app.py`: unavailable input maps
to `Calm`; else the first label (in `EMO_LABELS` order) whose lowercase form
is a substring of the stripped lowercased input is returned; else the
first-token fallback `tokenFallbackLabel` applies. -/
def sanitize_emotion_label (raw : List Char) : List Char :=
  if is_unavailable raw then
    String.toList "Calm"
  else
    let rl := pyLower (pyStrip raw)
    match EMO_LABELS.find? (fun lab => pyContainsSub rl (pyLower lab)) with
    | some lab => lab
    | none => tokenFallbackLabel rl

/-- Sentence-boundary punctuation of the regex in `summary_fallback`. -/
def SENTENCE_PUNCT : List Char := ['.', '!', '?']

/-- Fuel-indexed worker embedding Python
`re.split(r"(?<=[.!?])\s+", s)`: a sentence ends at a punctuation character
that is directly followed by whitespace; the whitespace run is consumed as
the separator.  `acc` holds the current piece reversed. -/
def splitSentsGo : Nat → List Char → List Char → List (List Char)
  | 0, acc, _ => [acc.reverse]
  | _ + 1, acc, [] => [acc.reverse]
  | fuel + 1, acc, c :: rest =>
    if SENTENCE_PUNCT.contains c
        && (match rest.head? with | some w => pyIsSpace w | none => false) then
      (c :: acc).reverse :: splitSentsGo fuel [] (rest.dropWhile pyIsSpace)
    else
      splitSentsGo fuel (c :: acc) rest

/-- Python `re.split(r"(?<=[.!?])\s+", s)`. -/
def splitSents (s : List Char) : List (List Char) :=
  splitSentsGo s.length [] s

/-- The piece list computed by `summary_fallback` before its case split:
split the stripped text into sentences, strip each piece and drop the empty
ones. -/
def summarySents (text : List Char) : List (List Char) :=
  ((splitSents (pyStrip text)).map pyStrip).filter (fun s => !s.isEmpty)

/-- The `summary_fallback` function of `app.py`: no sentences gives the first
200 characters of the raw text, one sentence is truncated to 300 characters,
otherwise the first two sentences joined by a space are truncated to 400
characters. -/
def summary_fallback (text : List Char) : List Char :=
  match summarySents text with
  | [] => text.take 200
  | [s] => s.take 300
  | s1 :: s2 :: _ => (s1 ++ [' '] ++ s2).take 400

/-- Line-break characters recognised by Python `str.splitlines()`. -/
def PY_LINEBREAKS : List Char :=
  ['\n', '\r', '\x0b', '\x0c', '\x1c', '\x1d', '\x1e', '\x85', '\u2028', '\u2029']

/-- First element of Python `s.splitlines()` for nonempty `s`: the longest
prefix free of line-break characters. -/
def firstSplitline (s : List Char) : List Char :=
  s.takeWhile (fun c => !PY_LINEBREAKS.contains c)

/-- The `first_line` value of `reflections_fallback`:
`text.strip().splitlines()[0] if text.strip() else ""`. -/
def reflectionsFirstLine (text : List Char) : List Char :=
  if (pyStrip text).isEmpty then [] else firstSplitline (pyStrip text)

/-- The three template points `pts` built by `reflections_fallback`. -/
def reflectionsPts (text : List Char) : List (List Char) :=
  let emo := simple_emotion_fallback text
  let first_line := reflectionsFirstLine text
  [ String.toList "It sounds like you felt " ++ pyLower emo
      ++ String.toList " while describing this.",
    (if first_line.isEmpty then
        String.toList "Recall one concrete moment from today that stands out."
      else
        String.toList "A key point you mentioned: " ++ first_line.take 120),
    String.toList "What is one small step you can take tomorrow to support yourself?" ]

/-- The `reflections_fallback` function of `app.py`:
`"\n".join(f"- \x7bp\x7d" for p in pts)`. -/
def reflections_fallback (text : List Char) : List Char :=
  List.intercalate ['\n'] ((reflectionsPts text).map (fun p => String.toList "- " ++ p))

/-- The `groq_generate` helper of `app.py`, with the outcome of the remote
chat-completion call made explicit: a missing client or any raised exception
yields the sentinel `"Unavailable"`, a successful call yields the stripped
content. -/
def groq_generate (hasClient : Bool) (remote : Except (List Char) (List Char)) :
    List Char :=
  if hasClient then
    match remote with
    | Except.ok content => pyStrip content
    | Except.error _ => String.toList "Unavailable"
  else
    String.toList "Unavailable"

/-- The transcription block of the Journal page (lines 167-185 of `app.py`):
with no Deepgram key the transcript is set to the empty string; with a key
the remote result is stripped on success, while a raised request error is
not caught inside the block and propagates. -/
def transcribeStep (hasDeepgramKey : Bool)
    (remote : Except (List Char) (List Char)) : Except (List Char) (List Char) :=
  if hasDeepgramKey then
    match remote with
    | Except.ok t => Except.ok (pyStrip t)
    | Except.error e => Except.error e
  else
    Except.ok []

/-- The raw emotion string `emo_raw` of the Journal page:
`groq_generate(emo_prompt) if GROQ_KEY else "Unavailable"`. -/
def emoRawOf (hasGroq : Bool) (emoRemote : Except (List Char) (List Char)) :
    List Char :=
  if hasGroq then groq_generate true emoRemote else String.toList "Unavailable"

/-- The `emo_label` value persisted by the Journal page:
`sanitize_emotion_label(emo_raw) if not is_unavailable(emo_raw) else
simple_emotion_fallback(transcription)`. -/
def emoLabelOf (hasGroq : Bool) (emoRemote : Except (List Char) (List Char))
    (transcription : List Char) : List Char :=
  let emo_raw := emoRawOf hasGroq emoRemote
  if !is_unavailable emo_raw then sanitize_emotion_label emo_raw
  else simple_emotion_fallback transcription

/-- The emotion value before normalization, taken from whichever source
produced it: the remote call when its output is usable, otherwise the
fallback detector. -/
def emoPreNormal (hasGroq : Bool) (emoRemote : Except (List Char) (List Char))
    (transcription : List Char) : List Char :=
  let emo_raw := emoRawOf hasGroq emoRemote
  if !is_unavailable emo_raw then emo_raw
  else simple_emotion_fallback transcription

/-- The `summary_text` value of the Journal page after its fallback
substitution. -/
def summaryOf (hasGroq : Bool) (sumRemote : Except (List Char) (List Char))
    (transcription : List Char) : List Char :=
  let raw := if hasGroq then groq_generate true sumRemote else String.toList "Unavailable"
  if is_unavailable raw then summary_fallback transcription else raw

/-- The `reflection_output` value of the Journal page after its fallback
substitution. -/
def reflectionOf (hasGroq : Bool) (refRemote : Except (List Char) (List Char))
    (transcription : List Char) : List Char :=
  let raw := if hasGroq then groq_generate true refRemote else String.toList "Unavailable"
  if is_unavailable raw then reflections_fallback transcription else raw

/-- A row of the `streaks` table: `(date TEXT PRIMARY KEY, count INTEGER)`. -/
abbrev StreakTable := List (List Char × Nat)

/-- `SELECT count FROM streaks WHERE date=?`. -/
def streakLookup (tbl : StreakTable) (d : List Char) : Option Nat :=
  (tbl.find? (fun p => p.1 == d)).map Prod.snd

/-- `INSERT OR REPLACE INTO streaks VALUES (?, ?)` on a primary-key table:
replace the row with the given date if present, else append a new row. -/
def streakUpsert (tbl : StreakTable) (d : List Char) (n : Nat) : StreakTable :=
  if tbl.any (fun p => p.1 == d) then
    tbl.map (fun p => if p.1 == d then (d, n) else p)
  else
    tbl ++ [(d, n)]

/-- The streak update of the Journal page (lines 242-245 of `app.py`): read
the current count for the date, add one (or start at one), and write the row
back with `INSERT OR REPLACE`. -/
def bumpStreak (tbl : StreakTable) (d : List Char) : StreakTable :=
  let newCount :=
    match streakLookup tbl d with
    | some c => c + 1
    | none => 1
  streakUpsert tbl d newCount

/-- Fold of `bumpStreak` over a sequence of recorded dates, starting from an
empty `streaks` table. -/
def applyBumps (ds : List (List Char)) : StreakTable :=
  ds.foldl bumpStreak []

/-- A row of the `entries` table of `app.py`. -/
structure JournalEntry where
  id : Nat
  date : List Char
  transcription : List Char
  emotion : List Char
  summary : List Char
  reflection : List Char
deriving DecidableEq

/-- The `entries` table, kept in insertion (rowid) order. -/
abbrev EntriesTable := List JournalEntry

/-- `INSERT INTO entries (date, transcription, emotion, summary, reflection)`:
append a row whose `INTEGER PRIMARY KEY` id is the next rowid. -/
def recordEntry (tbl : EntriesTable)
    (date transcription emotion summary reflection : List Char) : EntriesTable :=
  tbl ++ [⟨tbl.length + 1, date, transcription, emotion, summary, reflection⟩]

/-- Stable descending insertion by date: the new row goes in front of the
first row with a strictly smaller date, hence after every earlier row with
an equal date.  Dates compare as text, lexicographically (`List Char` is
ordered lexicographically, matching SQLite's memcmp order on UTF-8). -/
def insertByDateDesc (e : JournalEntry) : EntriesTable → EntriesTable
  | [] => [e]
  | x :: xs => if x.date < e.date then e :: x :: xs else x :: insertByDateDesc e xs

/-- Model of `ORDER BY date DESC` over the rowid scan of `entries`: a stable
descending sort by date.  SQL leaves the relative order of equal dates
unspecified; observed SQLite behaviour on this query is a stable sort over
the insertion-ordered scan, so equal dates come out in ascending insertion
order. -/
def orderByDateDesc (tbl : EntriesTable) : EntriesTable :=
  tbl.foldl (fun acc e => insertByDateDesc e acc) []

/-- The Past Entries query of `app.py`:
`SELECT ... FROM entries ORDER BY date DESC LIMIT limit`. -/
def listRecentEntries (tbl : EntriesTable) (lim : Nat) : EntriesTable :=
  (orderByDateDesc tbl).take lim

/-- Insertion step for the ordering asserted by the specification sentence
for the Past Entries query: date descending with ties broken by insertion
order descending (larger rowid first). -/
def insertByDateIdDesc (e : JournalEntry) : EntriesTable → EntriesTable
  | [] => [e]
  | x :: xs =>
    if x.date < e.date ∨ (x.date = e.date ∧ x.id < e.id) then e :: x :: xs
    else x :: insertByDateIdDesc e xs

/-- The Past Entries query as the specification words it: date descending,
ties broken by insertion order descending. -/
def listRecentEntriesSpecTie (tbl : EntriesTable) (lim : Nat) : EntriesTable :=
  (tbl.foldl (fun acc e => insertByDateIdDesc e acc) []).take lim

/-- User-visible outcome of one Journal-page interaction: the page-level
`except` handler message, the `"No speech detected"` warning, or a saved
entry. -/
inductive JournalOutcome where
  | apiError (msg : List Char)
  | noSpeech
  | saved (emotion summary reflection : List Char)
deriving DecidableEq

/-- The two tables of the local SQLite database. -/
structure DBState where
  streaks : StreakTable
  entries : EntriesTable
deriving DecidableEq

/-- One Journal-page interaction of `app.py` after audio was recorded: the
transcription block runs first; a raised transcription error is caught only
by the page-level handler (an `apiError` outcome, nothing persisted); an
empty transcript shows the no-speech warning and persists nothing;
otherwise emotion, summary and reflection are computed (remote call with
fallback substitution) and the streak row and entry row are written. -/
def journalPage (hasDeepgram hasGroq : Bool)
    (tRemote eRemote sRemote rRemote : Except (List Char) (List Char))
    (today : List Char) (db : DBState) : DBState × JournalOutcome :=
  match transcribeStep hasDeepgram tRemote with
  | Except.error e => (db, JournalOutcome.apiError e)
  | Except.ok transcription =>
    if transcription.isEmpty then
      (db, JournalOutcome.noSpeech)
    else
      let emo_label := emoLabelOf hasGroq eRemote transcription
      let summary_text := summaryOf hasGroq sRemote transcription
      let reflection_output := reflectionOf hasGroq rRemote transcription
      (⟨bumpStreak db.streaks today,
        recordEntry db.entries today transcription emo_label summary_text
          reflection_output⟩,
       JournalOutcome.saved emo_label summary_text reflection_output)

/-! ### Helper lemmas about `pyMaxKey` (Python `max` with a key function) -/

theorem pyMaxKey_cons {α : Type} (f : α → Nat) (x k : α) (ks : List α) :
    pyMaxKey f x (k :: ks) = pyMaxKey f (if f x < f k then k else x) ks := rfl

theorem pyMaxKey_mem {α : Type} (f : α → Nat) :
    ∀ (xs : List α) (x : α), pyMaxKey f x xs ∈ x :: xs
  | [], x => by simp [pyMaxKey]
  | k :: ks, x => by
    rw [pyMaxKey_cons]
    rcases List.mem_cons.1 (pyMaxKey_mem f ks (if f x < f k then k else x)) with h | h
    · rw [h]
      split <;> simp
    · simp [h]

theorem le_pyMaxKey {α : Type} (f : α → Nat) :
    ∀ (xs : List α) (x : α), ∀ y ∈ x :: xs, f y ≤ f (pyMaxKey f x xs)
  | [], x => by simp [pyMaxKey]
  | k :: ks, x => by
    intro y hy
    rw [pyMaxKey_cons]
    have hstep : f x ≤ f (if f x < f k then k else x) ∧
        f k ≤ f (if f x < f k then k else x) := by
      split <;> constructor <;> omega
    have hbase := le_pyMaxKey f ks (if f x < f k then k else x)
        (if f x < f k then k else x) (List.mem_cons_self _ _)
    rcases List.mem_cons.1 hy with rfl | hy
    · exact le_trans hstep.1 hbase
    · rcases List.mem_cons.1 hy with rfl | hy
      · exact le_trans hstep.2 hbase
      · exact le_pyMaxKey f ks _ y (List.mem_cons_of_mem _ hy)

theorem pyMaxKey_find {α : Type} (f : α → Nat) :
    ∀ (xs : List α) (x : α),
      (x :: xs).find? (fun y => f y == f (pyMaxKey f x xs)) = some (pyMaxKey f x xs)
  | [], x => by simp [pyMaxKey]
  | k :: ks, x => by
    rw [pyMaxKey_cons]
    by_cases hxk : f x < f k
    · rw [if_pos hxk]
      have ih := pyMaxKey_find f ks k
      have hkle : f k ≤ f (pyMaxKey f k ks) :=
        le_pyMaxKey f ks k k (List.mem_cons_self _ _)
      have hxne : (f x == f (pyMaxKey f k ks)) = false := by
        simp only [beq_eq_false_iff_ne, ne_eq]
        omega
      rw [List.find?_cons, hxne]
      exact ih
    · rw [if_neg hxk]
      have ih := pyMaxKey_find f ks x
      have hxle : f x ≤ f (pyMaxKey f x ks) :=
        le_pyMaxKey f ks x x (List.mem_cons_self _ _)
      by_cases hfx : f x = f (pyMaxKey f x ks)
      · have hx : (f x == f (pyMaxKey f x ks)) = true := beq_iff_eq.2 hfx
        rw [List.find?_cons, hx] at ih ⊢
        exact ih
      · have hx : (f x == f (pyMaxKey f x ks)) = false := by
          simpa using hfx
        rw [List.find?_cons, hx] at ih
        have hkne : (f k == f (pyMaxKey f x ks)) = false := by
          simp only [beq_eq_false_iff_ne, ne_eq]
          intro hk
          omega
        rw [List.find?_cons, hx, List.find?_cons, hkne]
        exact ih

/-! ### Helper lemmas about the emotion labels -/

theorem simple_emotion_fallback_mem (text : List Char) :
    simple_emotion_fallback text ∈ EMO_LABELS := by
  simp only [simple_emotion_fallback]
  split
  · decide
  · have h := pyMaxKey_mem (emotionScore (pyLower text))
      (EMO_LABELS.drop 1) (String.toList "Happy")
    simpa [EMO_LABELS, pyMaxKeyList] using h

theorem tokenFallbackLabel_mem (rl : List Char) :
    tokenFallbackLabel rl ∈ EMO_LABELS := by
  simp only [tokenFallbackLabel]
  generalize stripNonAlpha _ = tok
  split
  · next htok =>
    have hmem : tok ∈ EMO_LABELS.map pyLower := List.mem_of_elem_eq_true htok
    have hconc : EMO_LABELS.map pyLower =
        ["happy", "sad", "angry", "calm", "stressed"].map String.toList := by decide
    rw [hconc] at hmem
    simp only [List.map_cons, List.map_nil, List.mem_cons, List.not_mem_nil,
      or_false] at hmem
    rcases hmem with h | h | h | h | h <;> rw [h] <;> decide
  · decide

theorem sanitize_emotion_label_mem (raw : List Char) :
    sanitize_emotion_label raw ∈ EMO_LABELS := by
  simp only [sanitize_emotion_label]
  split
  · decide
  · rcases hf : EMO_LABELS.find? (fun lab => pyContainsSub (pyLower (pyStrip raw)) (pyLower lab)) with _ | lab
    · exact tokenFallbackLabel_mem _
    · exact List.mem_of_find?_eq_some hf

theorem sanitize_emotion_label_of_mem (lab : List Char) (hlab : lab ∈ EMO_LABELS) :
    sanitize_emotion_label lab = lab := by
  have hconc : EMO_LABELS =
      ["Happy", "Sad", "Angry", "Calm", "Stressed"].map String.toList := rfl
  rw [hconc] at hlab
  simp only [List.map_cons, List.map_nil, List.mem_cons, List.not_mem_nil,
    or_false] at hlab
  rcases hlab with h | h | h | h | h
  all_goals rw [h]
  all_goals decide

theorem sanitize_emotion_label_idem (s : List Char) :
    sanitize_emotion_label (sanitize_emotion_label s) = sanitize_emotion_label s :=
  sanitize_emotion_label_of_mem _ (sanitize_emotion_label_mem s)


/-! ### Helper lemmas about `List.find?` on association tables -/

theorem find?_cons_true {α : Type} (f : α → Bool) (a : α) (l : List α)
    (h : f a = true) : List.find? f (a :: l) = some a := by
  simp [List.find?_cons, h]

theorem find?_cons_false {α : Type} (f : α → Bool) (a : α) (l : List α)
    (h : f a = false) : List.find? f (a :: l) = List.find? f l := by
  simp [List.find?_cons, h]

/-! ### Helper lemmas about the streaks table -/

theorem find?_replaceRow_self (d : List Char) (n : Nat) :
    ∀ tbl : StreakTable, tbl.any (fun p => p.1 == d) = true →
      (tbl.map (fun p => if p.1 == d then (d, n) else p)).find? (fun p => p.1 == d)
        = some (d, n)
  | [], hany => by simp at hany
  | p :: rest, hany => by
    rw [List.map_cons]
    by_cases hp : (p.1 == d) = true
    · rw [if_pos hp, find?_cons_true _ _ _ (by simp)]
    · rw [if_neg hp, find?_cons_false _ _ _ (by simpa using hp)]
      apply find?_replaceRow_self d n rest
      rcases List.any_eq_true.1 hany with ⟨q, hq, hqd⟩
      rcases List.mem_cons.1 hq with rfl | hq
      · exact absurd hqd (by simpa using hp)
      · exact List.any_eq_true.2 ⟨q, hq, hqd⟩

theorem find?_appendRow_self (d : List Char) (n : Nat) :
    ∀ tbl : StreakTable, tbl.any (fun p => p.1 == d) = false →
      (tbl ++ [(d, n)]).find? (fun p => p.1 == d) = some (d, n)
  | [], _ => by
    rw [List.nil_append]
    exact find?_cons_true _ _ _ (by simp)
  | p :: rest, hany => by
    rw [List.any_cons] at hany
    rcases Bool.or_eq_false_iff.1 hany with ⟨hp, hrest⟩
    rw [List.cons_append,
      find?_cons_false (fun p => p.1 == d) p (rest ++ [(d, n)]) hp]
    exact find?_appendRow_self d n rest hrest

theorem find?_replaceRow_other (d d' : List Char) (hne : d' ≠ d) (n : Nat) :
    ∀ tbl : StreakTable,
      (tbl.map (fun p => if p.1 == d then (d, n) else p)).find? (fun p => p.1 == d')
        = tbl.find? (fun p => p.1 == d')
  | [] => by simp
  | p :: rest => by
    rw [List.map_cons]
    by_cases hp : (p.1 == d) = true
    · have hpe : p.1 = d := by simpa using hp
      have hpd : (p.1 == d') = false := by
        simp only [beq_eq_false_iff_ne, ne_eq, hpe]
        exact fun h => hne h.symm
      have hdd : ((d, n).1 == d') = false := by
        simp only [beq_eq_false_iff_ne, ne_eq]
        exact fun h => hne h.symm
      rw [if_pos hp,
        find?_cons_false (fun p => p.1 == d') (d, n)
          (rest.map (fun p => if p.1 == d then (d, n) else p)) hdd,
        find?_cons_false (fun p => p.1 == d') p rest hpd]
      exact find?_replaceRow_other d d' hne n rest
    · rw [if_neg hp]
      by_cases hpd : (p.1 == d') = true
      · rw [find?_cons_true (fun p => p.1 == d') p
            (rest.map (fun p => if p.1 == d then (d, n) else p)) hpd,
          find?_cons_true (fun p => p.1 == d') p rest hpd]
      · rw [find?_cons_false (fun p => p.1 == d') p
            (rest.map (fun p => if p.1 == d then (d, n) else p)) (by simpa using hpd),
          find?_cons_false (fun p => p.1 == d') p rest (by simpa using hpd)]
        exact find?_replaceRow_other d d' hne n rest

theorem find?_appendRow_other (d d' : List Char) (hne : d' ≠ d) (n : Nat) :
    ∀ tbl : StreakTable,
      (tbl ++ [(d, n)]).find? (fun p => p.1 == d') = tbl.find? (fun p => p.1 == d')
  | [] => by
    rw [List.nil_append, find?_cons_false _ _ _
      (by simp only [beq_eq_false_iff_ne, ne_eq]; exact fun h => hne h.symm)]
  | p :: rest => by
    rw [List.cons_append]
    by_cases hpd : (p.1 == d') = true
    · rw [find?_cons_true (fun p => p.1 == d') p (rest ++ [(d, n)]) hpd,
        find?_cons_true (fun p => p.1 == d') p rest hpd]
    · rw [find?_cons_false (fun p => p.1 == d') p (rest ++ [(d, n)]) (by simpa using hpd),
        find?_cons_false (fun p => p.1 == d') p rest (by simpa using hpd)]
      exact find?_appendRow_other d d' hne n rest

theorem streakLookup_upsert_self (d : List Char) (n : Nat) (tbl : StreakTable) :
    streakLookup (streakUpsert tbl d n) d = some n := by
  simp only [streakUpsert, streakLookup]
  split
  · next hany => rw [find?_replaceRow_self d n tbl hany]; rfl
  · next hany =>
    rw [find?_appendRow_self d n tbl (by simp only [Bool.not_eq_true] at hany; exact hany)]
    rfl

theorem streakLookup_upsert_other (d d' : List Char) (hne : d' ≠ d) (n : Nat)
    (tbl : StreakTable) :
    streakLookup (streakUpsert tbl d n) d' = streakLookup tbl d' := by
  simp only [streakUpsert, streakLookup]
  split
  · rw [find?_replaceRow_other d d' hne n tbl]
  · rw [find?_appendRow_other d d' hne n tbl]

theorem streakLookup_bump_self (tbl : StreakTable) (d : List Char) :
    streakLookup (bumpStreak tbl d) d = some ((streakLookup tbl d).getD 0 + 1) := by
  simp only [bumpStreak]
  rcases h : streakLookup tbl d with _ | c
  · simpa [h] using streakLookup_upsert_self d 1 tbl
  · simpa [h] using streakLookup_upsert_self d (c + 1) tbl

theorem streakLookup_bump_other (tbl : StreakTable) (d d' : List Char) (hne : d' ≠ d) :
    streakLookup (bumpStreak tbl d) d' = streakLookup tbl d' := by
  simp only [bumpStreak]
  exact streakLookup_upsert_other d d' hne _ tbl

theorem streakKeys_upsert_nodup (d : List Char) (n : Nat) (tbl : StreakTable)
    (h : (tbl.map Prod.fst).Pairwise (· ≠ ·)) :
    ((streakUpsert tbl d n).map Prod.fst).Pairwise (· ≠ ·) := by
  simp only [streakUpsert]
  split
  · next hany =>
    have hkeys : (tbl.map (fun p => if p.1 == d then (d, n) else p)).map Prod.fst
        = tbl.map Prod.fst := by
      rw [List.map_map]
      apply List.map_congr_left
      intro p _
      by_cases hp : p.1 = d
      · simp [hp]
      · simp [hp]
    rw [hkeys]
    exact h
  · next hany =>
    have hnot : ∀ p ∈ tbl, (p.1 == d) = false := by
      intro p hp
      cases hq : (p.1 == d) with
      | false => rfl
      | true => exact absurd (List.any_eq_true.2 ⟨p, hp, hq⟩) hany
    rw [List.map_append]
    apply List.pairwise_append.2
    refine ⟨h, by simp, ?_⟩
    intro a ha b hb
    simp only [List.map_cons, List.map_nil, List.mem_cons, List.not_mem_nil,
      or_false] at hb
    subst hb
    rcases List.mem_map.1 ha with ⟨p, hp, rfl⟩
    have := hnot p hp
    simpa using this

theorem streakKeys_bump_nodup (tbl : StreakTable) (d : List Char)
    (h : (tbl.map Prod.fst).Pairwise (· ≠ ·)) :
    ((bumpStreak tbl d).map Prod.fst).Pairwise (· ≠ ·) :=
  streakKeys_upsert_nodup d _ tbl h

theorem applyBumps_go (d : List Char) :
    ∀ (ds : List (List Char)) (tbl : StreakTable),
      streakLookup (List.foldl bumpStreak tbl ds) d =
        if ds.count d = 0 then streakLookup tbl d
        else some ((streakLookup tbl d).getD 0 + ds.count d)
  | [], tbl => by simp
  | d0 :: rest, tbl => by
    rw [List.foldl_cons]
    have ih := applyBumps_go d rest (bumpStreak tbl d0)
    by_cases hd : d0 = d
    · subst hd
      rw [streakLookup_bump_self tbl d0] at ih
      have hc : (d0 :: rest).count d0 = rest.count d0 + 1 := by
        simp [List.count_cons]
      rw [hc]
      rcases hz : rest.count d0 with _ | k
      · rw [hz] at ih
        simpa using ih
      · rw [hz] at ih
        simp only [Nat.succ_ne_zero, if_false] at ih ⊢
        rw [ih]
        congr 1
        simp only [Option.getD_some]
        omega
    · have hc : (d0 :: rest).count d = rest.count d := by
        simp [List.count_cons, hd]
      rw [← hc, streakLookup_bump_other tbl d0 d (fun h => hd h.symm)] at ih
      exact ih

theorem applyBumps_lookup (ds : List (List Char)) (d : List Char) :
    streakLookup (applyBumps ds) d =
      if ds.count d = 0 then none else some (ds.count d) := by
  have h := applyBumps_go d ds []
  simpa [applyBumps, streakLookup] using h

theorem applyBumps_keys_nodup (ds : List (List Char)) :
    ((applyBumps ds).map Prod.fst).Pairwise (· ≠ ·) := by
  suffices h : ∀ (es : List (List Char)) (tbl : StreakTable),
      (tbl.map Prod.fst).Pairwise (· ≠ ·) →
      ((List.foldl bumpStreak tbl es).map Prod.fst).Pairwise (· ≠ ·) by
    exact h ds [] (by simp)
  intro es
  induction es with
  | nil =>
    intro tbl h
    simpa using h
  | cons d0 rest ih =>
    intro tbl h
    rw [List.foldl_cons]
    exact ih _ (streakKeys_bump_nodup tbl d0 h)

/-! ### Helper lemmas about the Past Entries query -/

theorem mem_insertByDateDesc (e y : JournalEntry) :
    ∀ l : EntriesTable, y ∈ insertByDateDesc e l ↔ y = e ∨ y ∈ l
  | [] => by simp [insertByDateDesc]
  | x :: xs => by
    simp only [insertByDateDesc]
    split
    · exact List.mem_cons
    · rw [List.mem_cons, mem_insertByDateDesc e y xs, List.mem_cons]
      tauto

theorem length_insertByDateDesc (e : JournalEntry) :
    ∀ l : EntriesTable, (insertByDateDesc e l).length = l.length + 1
  | [] => rfl
  | x :: xs => by
    simp only [insertByDateDesc]
    split
    · simp
    · simp [length_insertByDateDesc e xs]

theorem pairwise_insertByDateDesc (e : JournalEntry) :
    ∀ l : EntriesTable,
      l.Pairwise (fun a b => b.date ≤ a.date) →
      (insertByDateDesc e l).Pairwise (fun a b => b.date ≤ a.date)
  | [], _ => by simp [insertByDateDesc]
  | x :: xs, h => by
    rcases List.pairwise_cons.1 h with ⟨hx, hxs⟩
    simp only [insertByDateDesc]
    split
    · next hlt =>
      apply List.pairwise_cons.2
      refine ⟨?_, h⟩
      intro y hy
      rcases List.mem_cons.1 hy with rfl | hy
      · exact le_of_lt hlt
      · exact le_trans (hx y hy) (le_of_lt hlt)
    · next hge =>
      apply List.pairwise_cons.2
      constructor
      · intro y hy
        rcases (mem_insertByDateDesc e y xs).1 hy with rfl | hy
        · exact le_of_not_lt hge
        · exact hx y hy
      · exact pairwise_insertByDateDesc e xs hxs

theorem orderByDateDesc_pairwise (tbl : EntriesTable) :
    (orderByDateDesc tbl).Pairwise (fun a b => b.date ≤ a.date) := by
  suffices h : ∀ (es : EntriesTable) (acc : EntriesTable),
      acc.Pairwise (fun a b => b.date ≤ a.date) →
      (es.foldl (fun acc e => insertByDateDesc e acc) acc).Pairwise
        (fun a b => b.date ≤ a.date) by
    exact h tbl [] (by simp)
  intro es
  induction es with
  | nil =>
    intro acc h
    simpa using h
  | cons e rest ih =>
    intro acc h
    rw [List.foldl_cons]
    exact ih _ (pairwise_insertByDateDesc e acc h)

theorem orderByDateDesc_length (tbl : EntriesTable) :
    (orderByDateDesc tbl).length = tbl.length := by
  suffices h : ∀ (es : EntriesTable) (acc : EntriesTable),
      (es.foldl (fun acc e => insertByDateDesc e acc) acc).length
        = acc.length + es.length by
    simpa using h tbl []
  intro es
  induction es with
  | nil => intro acc; simp
  | cons e rest ih =>
    intro acc
    rw [List.foldl_cons, ih, length_insertByDateDesc]
    simp only [List.length_cons]
    omega

/-! ### Specification-variant definitions used by corrected claims -/

/-- Emotion fallback as the specification words it: tie-break by the first
label in the iteration order of the label-to-keyword mapping `EMO_KEYWORDS`
(Happy, Sad, Angry, Stressed, Calm).  Modelled from the specification
sentence, for comparison with `simple_emotion_fallback`, whose tie-break
iterates the `scores` dict in `EMO_LABELS` order. -/
def simple_emotion_fallback_keywordOrder (text : List Char) : List Char :=
  let t := pyLower text
  if (EMO_KEYWORDS.map Prod.fst).all (fun label => emotionScore t label == 0) then
    String.toList "Calm"
  else
    pyMaxKeyList (emotionScore t) (String.toList "Calm") (EMO_KEYWORDS.map Prod.fst)

/-! ### Claim theorems -/

/-- C10: on the input `"unhappy"` the substring count of `"happy"` gives the
Happy score 1 and the keyword `"unhappy"` gives the Sad score 1; every other
score is 0, and the tie is broken in favour of Happy by the iteration order
of the scores dict built from `EMO_LABELS`, so `simple_emotion_fallback`
returns `"Happy"`. -/
theorem C10_unhappy_tie_prefers_happy :
    simple_emotion_fallback (String.toList "unhappy") = String.toList "Happy"
    ∧ emotionScore (pyLower (String.toList "unhappy")) (String.toList "Happy") = 1
    ∧ emotionScore (pyLower (String.toList "unhappy")) (String.toList "Sad") = 1
    ∧ emotionScore (pyLower (String.toList "unhappy")) (String.toList "Angry") = 0
    ∧ emotionScore (pyLower (String.toList "unhappy")) (String.toList "Calm") = 0
    ∧ emotionScore (pyLower (String.toList "unhappy")) (String.toList "Stressed") = 0
    ∧ EMO_LABELS.find? (fun l =>
        emotionScore (pyLower (String.toList "unhappy")) l == 1)
      = some (String.toList "Happy") := by
  decide

/-- C8: when the transcription step yields empty text, the Journal page
changes neither table and reports the no-speech notice. -/
theorem C8_empty_transcript_nothing_persisted (hasD hasG : Bool)
    (tR eR sR rR : Except (List Char) (List Char)) (today : List Char)
    (db : DBState) (h : transcribeStep hasD tR = Except.ok []) :
    journalPage hasD hasG tR eR sR rR today db = (db, JournalOutcome.noSpeech) := by
  simp [journalPage, h]

/-- C8 witness: with no transcription credential the transcript is empty and
the database is unchanged. -/
theorem C8_witness :
    transcribeStep false (Except.ok (String.toList "ignored")) = Except.ok []
    ∧ journalPage false true (Except.ok (String.toList "ignored"))
        (Except.ok []) (Except.ok []) (Except.ok [])
        (String.toList "2024-01-01") ⟨[], []⟩
      = (⟨[], []⟩, JournalOutcome.noSpeech) :=
  ⟨rfl, C8_empty_transcript_nothing_persisted false true _ _ _ _ _ _ rfl⟩

/-- C4 counterexample: a failing remote transcription call is not converted
to empty text by the transcription block; it propagates as an error and the
page-level handler reports an API error, not the empty-transcript notice. -/
theorem C4_counterexample :
    transcribeStep true (Except.error (String.toList "timeout")) ≠ Except.ok []
    ∧ journalPage true true (Except.error (String.toList "timeout"))
        (Except.ok []) (Except.ok []) (Except.ok [])
        (String.toList "2024-01-01") ⟨[], []⟩
      = (⟨[], []⟩, JournalOutcome.apiError (String.toList "timeout"))
    ∧ JournalOutcome.apiError (String.toList "timeout") ≠ JournalOutcome.noSpeech := by
  refine ⟨fun h => Except.noConfusion h, by decide, by decide⟩

/-- C4 (amended): `groq_generate` returns the sentinel `"Unavailable"` on a
missing credential or any raised exception; the transcription path yields
empty text only when its credential is missing, while a raised transcription
error propagates out of the transcription block and is caught by the
page-level handler, which reports it and persists nothing, so no raw
exception reaches the user. -/
theorem C4_adapter_error_handling :
    (∀ r, groq_generate false r = String.toList "Unavailable")
    ∧ (∀ e, groq_generate true (Except.error e) = String.toList "Unavailable")
    ∧ (∀ r, transcribeStep false r = Except.ok [])
    ∧ (∀ (hasG : Bool) (e : List Char) (eR sR rR : Except (List Char) (List Char))
        (today : List Char) (db : DBState),
        journalPage true hasG (Except.error e) eR sR rR today db
          = (db, JournalOutcome.apiError e)) :=
  ⟨fun _ => rfl, fun _ => rfl, fun _ => rfl, fun _ _ _ _ _ _ _ => rfl⟩

/-- C2: a bump with no prior row for the date stores count 1, a second bump
stores count 2, and after any sequence of bumps from an empty table there is
exactly one row per distinct date (pairwise distinct keys) whose count is
the number of entries recorded for that date. -/
theorem C2_streak_bump (tbl : StreakTable) (d : List Char) (ds : List (List Char))
    (hnone : streakLookup tbl d = none) :
    streakLookup (bumpStreak tbl d) d = some 1
    ∧ streakLookup (bumpStreak (bumpStreak tbl d) d) d = some 2
    ∧ ((applyBumps ds).map Prod.fst).Pairwise (· ≠ ·)
    ∧ (∀ d2, streakLookup (applyBumps ds) d2
        = if ds.count d2 = 0 then none else some (ds.count d2)) := by
  have h1 : streakLookup (bumpStreak tbl d) d = some 1 := by
    rw [streakLookup_bump_self, hnone]
    rfl
  refine ⟨h1, ?_, applyBumps_keys_nodup ds, fun d2 => applyBumps_lookup ds d2⟩
  rw [streakLookup_bump_self, h1]
  rfl

/-- C2 witness: concrete table with an unrelated date, bumped on a fresh
date, and a concrete bump sequence `a, a, b`. -/
theorem C2_witness :
    streakLookup [(String.toList "2024-01-01", 3)] (String.toList "2024-01-02") = none
    ∧ (streakLookup (bumpStreak [(String.toList "2024-01-01", 3)]
          (String.toList "2024-01-02")) (String.toList "2024-01-02") = some 1
      ∧ streakLookup (bumpStreak (bumpStreak [(String.toList "2024-01-01", 3)]
            (String.toList "2024-01-02")) (String.toList "2024-01-02"))
          (String.toList "2024-01-02") = some 2
      ∧ ((applyBumps [String.toList "a", String.toList "a", String.toList "b"]).map
          Prod.fst).Pairwise (· ≠ ·)
      ∧ (∀ d2, streakLookup
            (applyBumps [String.toList "a", String.toList "a", String.toList "b"]) d2
          = if [String.toList "a", String.toList "a", String.toList "b"].count d2 = 0
            then none
            else some ([String.toList "a", String.toList "a",
              String.toList "b"].count d2))) :=
  ⟨by decide, C2_streak_bump _ _ _ (by decide)⟩

/-- C7 counterexample: two rows with the same date inserted in order 1, 2 are
returned by the Past Entries query in ascending insertion order, while the
claimed descending tie-break would return them reversed. -/
theorem C7_counterexample :
    listRecentEntries
        [⟨1, String.toList "2024-01-01", [], [], [], []⟩,
          ⟨2, String.toList "2024-01-01", [], [], [], []⟩] 10
      = [⟨1, String.toList "2024-01-01", [], [], [], []⟩,
          ⟨2, String.toList "2024-01-01", [], [], [], []⟩]
    ∧ listRecentEntriesSpecTie
        [⟨1, String.toList "2024-01-01", [], [], [], []⟩,
          ⟨2, String.toList "2024-01-01", [], [], [], []⟩] 10
      = [⟨2, String.toList "2024-01-01", [], [], [], []⟩,
          ⟨1, String.toList "2024-01-01", [], [], [], []⟩]
    ∧ ([⟨1, String.toList "2024-01-01", [], [], [], []⟩,
          ⟨2, String.toList "2024-01-01", [], [], [], []⟩] : EntriesTable)
      ≠ [⟨2, String.toList "2024-01-01", [], [], [], []⟩,
          ⟨1, String.toList "2024-01-01", [], [], [], []⟩] := by
  refine ⟨by decide, by decide, by decide⟩

/-- C7 (amended): the Past Entries query returns at most `limit` rows,
ordered non-increasing by date; the relative order of rows with equal dates
is ascending insertion order in the model (SQL itself gives no tie
guarantee). -/
theorem C7_listRecentEntries (tbl : EntriesTable) (lim : Nat) :
    (listRecentEntries tbl lim).length ≤ lim
    ∧ (listRecentEntries tbl lim).Pairwise (fun a b => b.date ≤ a.date) := by
  constructor
  · simp only [listRecentEntries]
    exact List.length_take_le lim (orderByDateDesc tbl)
  · exact (orderByDateDesc_pairwise tbl).sublist (List.take_sublist _ _)

theorem emoLabelOf_mem (hasGroq : Bool) (eRemote : Except (List Char) (List Char))
    (transcription : List Char) :
    emoLabelOf hasGroq eRemote transcription ∈ EMO_LABELS := by
  simp only [emoLabelOf]
  cases h : is_unavailable (emoRawOf hasGroq eRemote) with
  | false => simpa [h] using sanitize_emotion_label_mem (emoRawOf hasGroq eRemote)
  | true => simpa [h] using simple_emotion_fallback_mem transcription

/-- C1: the persisted emotion label equals `sanitize_emotion_label` applied
to the emotion output of whichever source produced it (remote or fallback),
and is always one of the five fixed labels; every entry the Journal page
adds to the entries table carries such a label. -/
theorem C1_emotion_always_normalized (hasGroq : Bool)
    (eRemote : Except (List Char) (List Char)) (transcription : List Char) :
    emoLabelOf hasGroq eRemote transcription
      = sanitize_emotion_label (emoPreNormal hasGroq eRemote transcription)
    ∧ emoLabelOf hasGroq eRemote transcription ∈ EMO_LABELS
    ∧ (∀ (hasD : Bool) (tR sR rR : Except (List Char) (List Char))
        (today : List Char) (db : DBState) (e : JournalEntry),
        e ∈ (journalPage hasD hasGroq tR eRemote sR rR today db).1.entries →
        e ∈ db.entries ∨ e.emotion ∈ EMO_LABELS) := by
  refine ⟨?_, emoLabelOf_mem hasGroq eRemote transcription, ?_⟩
  · cases h : is_unavailable (emoRawOf hasGroq eRemote) with
    | false => simp [emoLabelOf, emoPreNormal, h]
    | true =>
      simp only [emoLabelOf, emoPreNormal, h, Bool.not_true, Bool.false_eq_true,
        if_false]
      exact (sanitize_emotion_label_of_mem _
        (simple_emotion_fallback_mem transcription)).symm
  · intro hasD tR sR rR today db e he
    rcases hts : transcribeStep hasD tR with msg | t
    · simp only [journalPage, hts] at he
      exact Or.inl he
    · simp only [journalPage, hts] at he
      by_cases hemp : t.isEmpty
      · rw [if_pos hemp] at he
        exact Or.inl he
      · rw [if_neg hemp] at he
        simp only [recordEntry] at he
        rcases List.mem_append.1 he with he | he
        · exact Or.inl he
        · rcases List.mem_singleton.1 he with rfl
          exact Or.inr (emoLabelOf_mem hasGroq eRemote t)

/-- C1 witness: a concrete run of the Journal page with no remote services;
the single persisted entry carries a label from the fixed set. -/
theorem C1_witness :
    (⟨1, String.toList "2024-01-01", String.toList "x",
        String.toList "Calm", String.toList "x",
        String.toList "- It sounds like you felt calm while describing this.\n- A key point you mentioned: x\n- What is one small step you can take tomorrow to support yourself?"⟩ : JournalEntry)
      ∈ (journalPage true false (Except.ok (String.toList "x"))
          (Except.ok []) (Except.ok []) (Except.ok [])
          (String.toList "2024-01-01") ⟨[], []⟩).1.entries
    ∧ ((⟨1, String.toList "2024-01-01", String.toList "x",
        String.toList "Calm", String.toList "x",
        String.toList "- It sounds like you felt calm while describing this.\n- A key point you mentioned: x\n- What is one small step you can take tomorrow to support yourself?"⟩ : JournalEntry)
        ∈ (⟨[], []⟩ : DBState).entries
      ∨ (String.toList "Calm") ∈ EMO_LABELS) := by
  have h := (C1_emotion_always_normalized false (Except.ok [])
      (String.toList "x")).2.2 true (Except.ok (String.toList "x"))
      (Except.ok []) (Except.ok []) (String.toList "2024-01-01") ⟨[], []⟩
      ⟨1, String.toList "2024-01-01", String.toList "x",
        String.toList "Calm", String.toList "x",
        String.toList "- It sounds like you felt calm while describing this.\n- A key point you mentioned: x\n- What is one small step you can take tomorrow to support yourself?"⟩
      (by decide)
  exact ⟨by decide, h⟩

/-! ### Helper lemmas for case-insensitive label normalization -/

theorem pyIsSpace_toLower (c : Char) (h : pyIsSpace c = true) :
    Char.toLower c = c := by
  simp only [pyIsSpace, Bool.or_eq_true, beq_iff_eq] at h
  rcases h with ((((h | h) | h) | h) | h) | h <;> subst h <;> decide

theorem dropWhile_eq_self_of_all {p : Char → Bool} (s : List Char)
    (h : ∀ c ∈ s, p c = false) : s.dropWhile p = s := by
  cases s with
  | nil => rfl
  | cons c rest => simp [List.dropWhile_cons, h c (List.mem_cons_self c rest)]

theorem pyStrip_eq_self_of_all (s : List Char)
    (h : ∀ c ∈ s, pyIsSpace c = false) : pyStrip s = s := by
  unfold pyStrip
  rw [dropWhile_eq_self_of_all s h,
    dropWhile_eq_self_of_all s.reverse (fun c hc => h c (List.mem_reverse.1 hc)),
    List.reverse_reverse]

theorem sanitize_of_lower_eq (lab : List Char)
    (hfind : EMO_LABELS.find? (fun l2 => pyContainsSub (pyLower lab) (pyLower l2))
      = some lab)
    (hnosp : ∀ c ∈ pyLower lab, pyIsSpace c = false)
    (hnosent : UNAVAILABLE_SENTINELS.contains (pyLower lab) = false)
    (s : List Char) (h : pyLower s = pyLower lab) :
    sanitize_emotion_label s = lab := by
  have hsp : ∀ c ∈ s, pyIsSpace c = false := by
    intro c hc
    have hmem : Char.toLower c ∈ pyLower lab := by
      rw [← h]
      exact List.mem_map_of_mem Char.toLower hc
    have hlow : pyIsSpace (Char.toLower c) = false := hnosp _ hmem
    cases hq : pyIsSpace c with
    | false => rfl
    | true =>
      rw [pyIsSpace_toLower c hq, hq] at hlow
      exact Bool.noConfusion hlow
  have hstrip : pyStrip s = s := pyStrip_eq_self_of_all s hsp
  have hunav : is_unavailable s = false := by
    simp only [is_unavailable, hstrip, h, hnosent]
  simp only [sanitize_emotion_label, hunav, Bool.false_eq_true, if_false,
    hstrip, h, hfind]

/-- C6: `sanitize_emotion_label` is idempotent, and any letter-case variant
of one of the five canonical labels is mapped to that canonical label. -/
theorem C6_sanitize_idempotent_case_insensitive :
    (∀ s, sanitize_emotion_label (sanitize_emotion_label s)
      = sanitize_emotion_label s)
    ∧ (∀ lab ∈ EMO_LABELS, ∀ s, pyLower s = pyLower lab →
        sanitize_emotion_label s = lab) := by
  constructor
  · exact sanitize_emotion_label_idem
  · intro lab hlab s h
    have hconc : EMO_LABELS =
        ["Happy", "Sad", "Angry", "Calm", "Stressed"].map String.toList := rfl
    rw [hconc] at hlab
    simp only [List.map_cons, List.map_nil, List.mem_cons, List.not_mem_nil,
      or_false] at hlab
    rcases hlab with hl | hl | hl | hl | hl <;> subst hl <;>
      exact sanitize_of_lower_eq _ (by decide) (by decide) (by decide) s h

/-- C6 witness: idempotence at a junk input and normalization of a mixed-case
canonical label. -/
theorem C6_witness :
    String.toList "Stressed" ∈ EMO_LABELS
    ∧ pyLower (String.toList "sTREssED") = pyLower (String.toList "Stressed")
    ∧ sanitize_emotion_label (sanitize_emotion_label (String.toList "huh?!"))
      = sanitize_emotion_label (String.toList "huh?!")
    ∧ sanitize_emotion_label (String.toList "sTREssED") = String.toList "Stressed" :=
  ⟨by decide, by decide,
    C6_sanitize_idempotent_case_insensitive.1 (String.toList "huh?!"),
    C6_sanitize_idempotent_case_insensitive.2 (String.toList "Stressed")
      (by decide) (String.toList "sTREssED") (by decide)⟩

/-- C3 counterexample: on `"calm pressure"` the Calm and Stressed scores tie
at 1; the code returns `Calm` (first maximal label in `EMO_LABELS` order),
while the tie-break claimed from the `EMO_KEYWORDS` iteration order would
return `Stressed`. -/
theorem C3_counterexample :
    simple_emotion_fallback (String.toList "calm pressure") = String.toList "Calm"
    ∧ simple_emotion_fallback_keywordOrder (String.toList "calm pressure")
      = String.toList "Stressed"
    ∧ emotionScore (pyLower (String.toList "calm pressure")) (String.toList "Calm") = 1
    ∧ emotionScore (pyLower (String.toList "calm pressure")) (String.toList "Stressed") = 1
    ∧ String.toList "Calm" ≠ String.toList "Stressed" := by
  refine ⟨by decide, by decide, by decide, by decide, by decide⟩

/-- C3 (amended): `simple_emotion_fallback` always returns one of the five
labels; it returns `Calm` when every keyword score is zero; the returned
label's score is maximal; and when some score is nonzero the returned label
is the first label attaining the maximal score in the iteration order of the
scores dict built from `EMO_LABELS` (Happy, Sad, Angry, Calm, Stressed). -/
theorem C3_emotion_fallback_characterization (text : List Char) :
    simple_emotion_fallback text ∈ EMO_LABELS
    ∧ ((∀ l ∈ EMO_LABELS, emotionScore (pyLower text) l = 0) →
        simple_emotion_fallback text = String.toList "Calm")
    ∧ (∀ l ∈ EMO_LABELS, emotionScore (pyLower text) l
        ≤ emotionScore (pyLower text) (simple_emotion_fallback text))
    ∧ ((∃ l ∈ EMO_LABELS, emotionScore (pyLower text) l ≠ 0) →
        EMO_LABELS.find? (fun l => emotionScore (pyLower text) l
            == emotionScore (pyLower text) (simple_emotion_fallback text))
          = some (simple_emotion_fallback text)) := by
  have hcons : String.toList "Happy" :: EMO_LABELS.drop 1 = EMO_LABELS := rfl
  by_cases hall : EMO_LABELS.all
      (fun label => emotionScore (pyLower text) label == 0) = true
  · have hfb : simple_emotion_fallback text = String.toList "Calm" := by
      simp [simple_emotion_fallback, hall]
    refine ⟨by rw [hfb]; decide, fun _ => hfb, ?_, ?_⟩
    · intro l hl
      have h0 : emotionScore (pyLower text) l = 0 := by
        simpa using List.all_eq_true.1 hall l hl
      rw [h0]
      exact Nat.zero_le _
    · rintro ⟨l, hl, hne⟩
      have h0 : emotionScore (pyLower text) l = 0 := by
        simpa using List.all_eq_true.1 hall l hl
      exact absurd h0 hne
  · have hfb : simple_emotion_fallback text
        = pyMaxKey (emotionScore (pyLower text)) (String.toList "Happy")
          (EMO_LABELS.drop 1) := by
      simp only [simple_emotion_fallback, hall, Bool.false_eq_true, if_false]
      rfl
    refine ⟨?_, ?_, ?_, ?_⟩
    · rw [hfb, ← hcons]
      exact pyMaxKey_mem _ _ _
    · intro hz
      exfalso
      apply hall
      exact List.all_eq_true.2 (fun l hl => by simpa using hz l hl)
    · intro l hl
      rw [hfb]
      exact le_pyMaxKey _ (EMO_LABELS.drop 1) (String.toList "Happy") l
        (hcons ▸ hl)
    · intro _
      rw [hfb, ← hcons]
      exact pyMaxKey_find _ _ _

/-- C3 witness: the all-zero case returns `Calm`, and on a text with nonzero
scores the first-maximal characterization holds concretely. -/
theorem C3_witness :
    (∀ l ∈ EMO_LABELS, emotionScore (pyLower (String.toList "zzz")) l = 0)
    ∧ simple_emotion_fallback (String.toList "zzz") = String.toList "Calm"
    ∧ (∃ l ∈ EMO_LABELS,
        emotionScore (pyLower (String.toList "calm pressure")) l ≠ 0)
    ∧ EMO_LABELS.find? (fun l => emotionScore (pyLower (String.toList "calm pressure")) l
          == emotionScore (pyLower (String.toList "calm pressure"))
            (simple_emotion_fallback (String.toList "calm pressure")))
      = some (simple_emotion_fallback (String.toList "calm pressure")) :=
  ⟨by decide,
    (C3_emotion_fallback_characterization (String.toList "zzz")).2.1 (by decide),
    by decide,
    (C3_emotion_fallback_characterization (String.toList "calm pressure")).2.2.2
      (by decide)⟩

/-- C5: `summary_fallback` returns the first 200 characters of the raw text
when sentence splitting finds no sentences, the single sentence truncated to
300 characters when it finds exactly one, and the first two sentences joined
by a space truncated to 400 characters otherwise; on the empty string it
returns the empty string, and its output never exceeds 400 characters. -/
theorem C5_summary_fallback_cases (text : List Char) :
    (summarySents text = [] → summary_fallback text = text.take 200)
    ∧ (∀ s, summarySents text = [s] → summary_fallback text = s.take 300)
    ∧ (∀ s1 s2 rest, summarySents text = s1 :: s2 :: rest →
        summary_fallback text = (s1 ++ [' '] ++ s2).take 400)
    ∧ summary_fallback [] = []
    ∧ (summary_fallback text).length ≤ 400 := by
  refine ⟨?_, ?_, ?_, rfl, ?_⟩
  · intro h
    simp [summary_fallback, h]
  · intro s h
    simp [summary_fallback, h]
  · intro s1 s2 rest h
    simp [summary_fallback, h]
  · rcases h : summarySents text with _ | ⟨s1, _ | ⟨s2, rest⟩⟩
    · rw [show summary_fallback text = text.take 200 by simp [summary_fallback, h]]
      exact le_trans (List.length_take_le 200 text) (by omega)
    · rw [show summary_fallback text = s1.take 300 by simp [summary_fallback, h]]
      exact le_trans (List.length_take_le 300 s1) (by omega)
    · rw [show summary_fallback text = (s1 ++ [' '] ++ s2).take 400 by
        simp [summary_fallback, h]]
      exact List.length_take_le 400 _

/-- C5 witness: a three-sentence text takes the two-sentence branch, and the
empty string yields the empty summary. -/
theorem C5_witness :
    summarySents (String.toList "Hi there. Second one. Third.")
      = [String.toList "Hi there.", String.toList "Second one.",
          String.toList "Third."]
    ∧ summary_fallback (String.toList "Hi there. Second one. Third.")
      = (String.toList "Hi there." ++ [' '] ++ String.toList "Second one.").take 400
    ∧ summary_fallback [] = [] :=
  ⟨by decide,
    (C5_summary_fallback_cases (String.toList "Hi there. Second one. Third.")).2.2.1
      (String.toList "Hi there.") (String.toList "Second one.")
      [String.toList "Third."] (by decide),
    (C5_summary_fallback_cases []).2.2.2.1⟩

/-! ### Helper lemmas for the reflections generator -/

theorem newline_not_mem_pyLower_fallback (text : List Char) :
    '\n' ∉ pyLower (simple_emotion_fallback text) := by
  have hm := simple_emotion_fallback_mem text
  have hconc : EMO_LABELS =
      ["Happy", "Sad", "Angry", "Calm", "Stressed"].map String.toList := rfl
  rw [hconc] at hm
  simp only [List.map_cons, List.map_nil, List.mem_cons, List.not_mem_nil,
    or_false] at hm
  rcases hm with h | h | h | h | h <;> rw [h] <;> decide

theorem newline_not_mem_firstLine (text : List Char) :
    '\n' ∉ reflectionsFirstLine text := by
  simp only [reflectionsFirstLine]
  split
  · exact List.not_mem_nil '\n'
  · intro hmem
    have hp := List.mem_takeWhile_imp hmem
    exact absurd hp (by decide)

theorem newline_not_mem_reflections_bullets (text : List Char) :
    ∀ q ∈ (reflectionsPts text).map (fun p => String.toList "- " ++ p),
      '\n' ∉ q := by
  intro q hq
  rcases List.mem_map.1 hq with ⟨p, hp, rfl⟩
  simp only [reflectionsPts, List.mem_cons, List.not_mem_nil, or_false] at hp
  intro hmem
  rcases List.mem_append.1 hmem with hmem | hmem
  · exact absurd hmem (by decide)
  · rcases hp with rfl | rfl | rfl
    · rcases List.mem_append.1 hmem with hmem | hmem
      · rcases List.mem_append.1 hmem with hmem | hmem
        · exact absurd hmem (by decide)
        · exact newline_not_mem_pyLower_fallback text hmem
      · exact absurd hmem (by decide)
    · revert hmem
      split
      · decide
      · intro hmem
        rcases List.mem_append.1 hmem with hmem | hmem
        · exact absurd hmem (by decide)
        · exact newline_not_mem_firstLine text (List.take_subset 120 _ hmem)
    · exact absurd hmem (by decide)

/-- C9: for every input, `reflections_fallback` splits on newlines into
exactly the three bullet points of `reflectionsPts` (emotion statement,
quoted-or-generic key point, fixed forward-looking question), so it has
exactly 3 lines and each line starts with the bullet marker. -/
theorem C9_reflections_three_bullets (text : List Char) :
    (reflections_fallback text).splitOn '\n'
      = (reflectionsPts text).map (fun p => String.toList "- " ++ p)
    ∧ ((reflections_fallback text).splitOn '\n').length = 3
    ∧ ∀ l ∈ (reflections_fallback text).splitOn '\n',
        (String.toList "- ").isPrefixOf l := by
  have h1 : (reflections_fallback text).splitOn '\n'
      = (reflectionsPts text).map (fun p => String.toList "- " ++ p) := by
    have hne : (reflectionsPts text).map (fun p => String.toList "- " ++ p) ≠ [] := by
      simp [reflectionsPts]
    exact List.splitOn_intercalate _ '\n'
      (newline_not_mem_reflections_bullets text) hne
  refine ⟨h1, ?_, ?_⟩
  · rw [h1]
    simp [reflectionsPts]
  · intro l hl
    rw [h1] at hl
    rcases List.mem_map.1 hl with ⟨p, _, rfl⟩
    exact List.isPrefixOf_iff_prefix.2 (List.prefix_append _ _)

/-- C9 witness: the empty input still yields exactly three bullet lines, the
second being the generic prompt. -/
theorem C9_witness :
    (reflections_fallback []).splitOn '\n'
      = (reflectionsPts []).map (fun p => String.toList "- " ++ p)
    ∧ ((reflections_fallback []).splitOn '\n').length = 3
    ∧ (String.toList "- ").isPrefixOf
        (String.toList "- Recall one concrete moment from today that stands out.") :=
  ⟨(C9_reflections_three_bullets []).1,
    (C9_reflections_three_bullets []).2.1,
    (C9_reflections_three_bullets []).2.2
      (String.toList "- Recall one concrete moment from today that stands out.")
      (by decide)⟩

end Unposted
